import Mathlib

/-!
Verification of the rustdocs MCP documentation server against its
natural-language specification.  The Rust sources under `src/` are shallowly
embedded: SQL statements become pure functions over list-modelled tables,
the crawler and retry loops become fuel/structural recursions over an
abstract page world, and the HTTP health handler becomes a pure function on
a request description.  Machine integers are modelled by `Int`/`Nat`
(no overflow is relevant to the verified claims), timestamps by `Nat`, and
vector components by `ℚ`.
-/

namespace RustDocs

/-! ## String helpers (models of Rust `str` operations) -/

/-- Model of `a.isPrefixOf b` on character lists (Rust `str::starts_with`). -/
def pfx : List Char → List Char → Bool
  | [], _ => true
  | _ :: _, [] => false
  | a :: as, b :: bs => a == b && pfx as bs

/-- Helper for substring search: does `pat` occur in the list? -/
def hasSubAux (pat : List Char) : List Char → Bool
  | [] => pat.isEmpty
  | c :: cs => pfx pat (c :: cs) || hasSubAux pat cs

/-- Model of Rust `str::contains` for literal patterns. -/
def hasSub (s pat : String) : Bool := hasSubAux pat.data s.data

/-- Model of Rust `bool` formatting (`format!("{b}")`). -/
def boolText (b : Bool) : String := cond b "true" "false"

/-- Model of Rust `DoubleEndedIterator::nth_back`: the `n`-th element
counting from the end (0-based). -/
def nthBack (l : List α) (n : Nat) : Option α := l.reverse.get? n

/-! ## Store model: `crate_configs` and `upsert_crate_config`
(src/src/database.rs).  A `CrateConfig` row carries every column of the
`crate_configs` table; timestamps are abstract `Nat`\x27s.  The unique key is
`(name, version_spec)`. -/

structure CrateConfig where
  id : Int
  name : String
  version_spec : String
  current_version : Option String
  features : List String
  expected_docs : Int
  enabled : Bool
  last_checked : Option Nat
  last_populated : Option Nat
  created_at : Nat
  updated_at : Nat
  deriving Repr, DecidableEq

structure ConfigDb where
  configs : List CrateConfig
  nextId : Int
  deriving Repr

/-- The `ON CONFLICT (name, version_spec) DO UPDATE` arm of
`upsert_crate_config`: replaces `current_version`, `features`,
`expected_docs`, `enabled` with the excluded values and bumps
`updated_at`; every other column keeps its stored value. -/
def applyConflictUpdate (r : CrateConfig) (cfg : CrateConfig) (now : Nat) : CrateConfig :=
  { r with
    current_version := cfg.current_version
    features := cfg.features
    expected_docs := cfg.expected_docs
    enabled := cfg.enabled
    updated_at := now }

/-- Update the first row matching the `(name, version_spec)` key (the table
keeps this key unique, so at most one row matches).  Returns the updated
table together with the updated row (`RETURNING *`), or `none` when no row
conflicts. -/
def updateFirstConfig (cfg : CrateConfig) (now : Nat) : List CrateConfig → Option (List CrateConfig × CrateConfig)
  | [] => none
  | r :: rs =>
    if r.name = cfg.name ∧ r.version_spec = cfg.version_spec then
      let r' := applyConflictUpdate r cfg now
      some (r' :: rs, r')
    else
      match updateFirstConfig cfg now rs with
      | none => none
      | some (rs', x) => some (r :: rs', x)

/-- Model of `Database::upsert_crate_config`: `INSERT ... ON CONFLICT
(name, version_spec) DO UPDATE ... RETURNING *`.  The insert path stores the
bound columns (`name`, `version_spec`, `current_version`, `features`,
`expected_docs`, `enabled`), a server-assigned id and the schema defaults
(`NULL` check/population timestamps, `CURRENT_TIMESTAMP` created/updated). -/
def upsert_crate_config (s : ConfigDb) (cfg : CrateConfig) (now : Nat) : ConfigDb × CrateConfig :=
  match updateFirstConfig cfg now s.configs with
  | some (rows, r) => ({ s with configs := rows }, r)
  | none =>
    let r : CrateConfig :=
      { id := s.nextId
        name := cfg.name
        version_spec := cfg.version_spec
        current_version := cfg.current_version
        features := cfg.features
        expected_docs := cfg.expected_docs
        enabled := cfg.enabled
        last_checked := none
        last_populated := none
        created_at := now
        updated_at := now }
    ({ configs := s.configs ++ [r], nextId := s.nextId + 1 }, r)

/-! ## Store model: `crates`, `doc_embeddings` and their operations
(src/src/database.rs).  Vector components are `ℚ`; the pgvector cosine
distance operator `<=>` is an external database built-in, so the search
model is parametric in the distance function it computes. -/

structure CrateRow where
  id : Int
  name : String
  version : Option String
  last_updated : Nat
  total_docs : Int
  total_tokens : Int
  deriving Repr, DecidableEq

structure DocRow where
  crate_id : Int
  crate_name : String
  doc_path : String
  content : String
  embedding : List ℚ
  token_count : Int
  created_at : Nat
  deriving Repr, DecidableEq

structure Db where
  crates : List CrateRow
  doc_embeddings : List DocRow
  deriving Repr

/-- Does a row conflict on the unique key `(crate_name, doc_path)`? -/
def rowKeyMatches (r : DocRow) (name path : String) : Bool :=
  r.crate_name == name && r.doc_path == path

/-- One `INSERT INTO doc_embeddings ... ON CONFLICT (crate_name, doc_path)
DO UPDATE SET content, embedding, token_count, created_at` statement of the
batch loop.  The conflict arm updates only those four columns (in
particular `crate_id` keeps its stored value); otherwise a fresh row with
the supplied `crate_id` is inserted. -/
def insertEmbeddingRow (table : List DocRow) (cid : Int) (name path content : String)
    (emb : List ℚ) (tok : Int) (now : Nat) : List DocRow :=
  if table.any (fun r => rowKeyMatches r name path) then
    table.map (fun r =>
      if rowKeyMatches r name path then
        { r with content := content, embedding := emb, token_count := tok, created_at := now }
      else r)
  else
    table ++ [{ crate_id := cid, crate_name := name, doc_path := path, content := content,
                embedding := emb, token_count := tok, created_at := now }]

/-- Model of `Database::update_crate_stats`: refreshes `total_docs` and
`total_tokens` of the crate row with the given id from aggregates over
`doc_embeddings` rows with `crate_id = $1`. -/
def update_crate_stats (db : Db) (cid : Int) : Db :=
  { db with crates := db.crates.map (fun c =>
      if c.id == cid then
        { c with
          total_docs := ((db.doc_embeddings.filter (fun r => r.crate_id == cid)).length : Int)
          total_tokens := ((db.doc_embeddings.filter (fun r => r.crate_id == cid)).map
            (fun r => r.token_count)).sum }
      else c) }

/-- Model of `Database::insert_embeddings_batch`: upserts every
`(path, content, embedding, token_count)` tuple in order inside one
transaction, then refreshes the crate statistics. -/
def insert_embeddings_batch (db : Db) (cid : Int) (name : String)
    (batch : List (String × String × List ℚ × Int)) (now : Nat) : Db :=
  let table := batch.foldl (fun t item =>
    insertEmbeddingRow t cid name item.1 item.2.1 item.2.2.1 item.2.2.2 now) db.doc_embeddings
  update_crate_stats { db with doc_embeddings := table } cid

/-- Model of `Database::search_similar_docs`: `SELECT doc_path, content,
1 - (embedding <=> $1) FROM doc_embeddings WHERE crate_name = $2 ORDER BY
embedding <=> $1 LIMIT $3`.  `dist` stands for the pgvector cosine-distance
operator `<=>` applied to a stored embedding and the query vector. -/
def search_similar_docs (table : List DocRow) (dist : List ℚ → List ℚ → ℚ)
    (crateName : String) (q : List ℚ) (lim : Nat) : List (String × String × ℚ) :=
  let filtered := table.filter (fun r => r.crate_name == crateName)
  let sorted := filtered.insertionSort (fun a b => dist a.embedding q ≤ dist b.embedding q)
  (sorted.take lim).map (fun r => (r.doc_path, r.content, 1 - dist r.embedding q))

/-! ## Doc crawler model (src/src/doc_loader.rs).

HTTP and HTML parsing are external collaborators.  A fetch attempt is
answered by an oracle `Nat → HttpResp` (one response per attempt number);
a whole-URL fetch outcome in the crawl is `Option ParsedPage` (`none` for a
permanent failure after retries).  A `ParsedPage` carries exactly what the
crawl loop reads from the parsed HTML: the text of the first `.version`
element (if any), the extracted text of each content-selector element, and
the `href` of each anchor in document order. -/

/-- One HTTP response as discriminated by `fetch_with_retry`:
2xx (with the body read succeeding or failing), 429, 404, other 4xx,
5xx, or a transport error. -/
inductive HttpResp where
  | success (body : Option String)
  | tooMany
  | notFound
  | clientError
  | serverError
  | transportError
  deriving Repr, DecidableEq

inductive FetchErr where
  | http
  | rateLimited
  | network
  deriving Repr, DecidableEq

/-- Responses on which `fetch_with_retry` retries (2xx with a failed body
read, 429, 5xx, transport error). -/
def isRetryable : HttpResp → Bool
  | .success none => true
  | .tooMany => true
  | .serverError => true
  | .transportError => true
  | _ => false

/-- The loop of `fetch_with_retry`, started at attempt counter `a` with
current backoff `delay` (milliseconds).  Returns the result, the number of
requests issued, and the list of backoff sleeps performed (in order).  Each
iteration issues exactly one request; retryable failures sleep `delay`,
double it (capped at 30000 ms) and increment the counter, returning a
permanent failure once `a ≥ maxRetries`. -/
def fetchGo (oracle : Nat → HttpResp) (maxRetries : Nat) (a delay : Nat) :
    Except FetchErr String × Nat × List Nat :=
  match oracle a with
  | .success (some text) => (.ok text, 1, [])
  | .success none =>
    if _h : a ≥ maxRetries then (.error .http, 1, [])
    else
      let r := fetchGo oracle maxRetries (a + 1) (min (delay * 2) 30000)
      (r.1, r.2.1 + 1, delay :: r.2.2)
  | .tooMany =>
    if _h : a ≥ maxRetries then (.error .rateLimited, 1, [])
    else
      let r := fetchGo oracle maxRetries (a + 1) (min (delay * 2) 30000)
      (r.1, r.2.1 + 1, delay :: r.2.2)
  | .notFound => (.error .network, 1, [])
  | .clientError => (.error .network, 1, [])
  | .serverError =>
    if _h : a ≥ maxRetries then (.error .network, 1, [])
    else
      let r := fetchGo oracle maxRetries (a + 1) (min (delay * 2) 30000)
      (r.1, r.2.1 + 1, delay :: r.2.2)
  | .transportError =>
    if _h : a ≥ maxRetries then (.error .http, 1, [])
    else
      let r := fetchGo oracle maxRetries (a + 1) (min (delay * 2) 30000)
      (r.1, r.2.1 + 1, delay :: r.2.2)
  termination_by maxRetries - a
  decreasing_by all_goals omega

/-- Model of `fetch_with_retry`: attempts start at 0 with a 1000 ms delay. -/
def fetch_with_retry (oracle : Nat → HttpResp) (maxRetries : Nat) :
    Except FetchErr String × Nat × List Nat :=
  fetchGo oracle maxRetries 0 1000

/-- The backoff sequence produced by `n` sleeps starting from `start` ms:
each sleep uses the current delay, which is then doubled and capped at
30000 ms. -/
def expectedDelays (start : Nat) : Nat → List Nat
  | 0 => []
  | n + 1 => start :: expectedDelays (min (start * 2) 30000) n

/-- What the crawl loop reads from one successfully fetched page. -/
structure ParsedPage where
  versionText : Option String
  blocks : List String
  links : List String
  deriving Repr

structure Document where
  path : String
  content : String
  deriving Repr, DecidableEq

/-- Model of the nested `should_process_url` helper: skip source-code pages
and item-fragment anchors. -/
def should_process_url (url : String) : Bool :=
  if hasSub url "/src/" then false
  else if hasSub url "#method." || hasSub url "#impl-"
      || hasSub url "#associatedtype." || hasSub url "#associatedconstant." then false
  else true

/-- Which `href` values the link-discovery step follows. -/
def shouldFollow (href : String) : Bool :=
  href.startsWith "./" || href.startsWith "../" ||
    (!href.startsWith "http" && !href.startsWith "#" && !href.startsWith "/"
      && href.endsWith ".html")

/-- The version-extraction block run on the first processed page: the
trimmed text of a `.version` element when present, else the
`nth_back(2)` segment of the URL split on `/` when it is not the literal
"latest" and contains a digit. -/
def extractVersionFromPage (url : String) (page : ParsedPage) : Option String :=
  match page.versionText with
  | some t => some t.trim
  | none =>
    match nthBack (url.splitOn "/") 2 with
    | some seg =>
      if seg != "latest" && seg.data.any (fun c => c.isDigit) then some seg else none
    | none => none

/-- `url.strip_prefix("https://docs.rs/").unwrap_or(url)`. -/
def stripDocsPrefix (url : String) : String :=
  if "https://docs.rs/".isPrefixOf url then url.drop 16 else url

structure CrawlState where
  documents : List Document
  visited : List String
  frontier : List String
  version : Option String
  processed : Nat
  fetched : List String
  deriving Repr

/-- Link discovery on one page: for every href that `shouldFollow`, resolve
it against the current URL (`resolve` stands for `reqwest::Url::join`) and
enqueue the result when it mentions `docs.rs` and the crate name, is not
yet visited, and passes the URL policy. -/
def discoverLinks (resolve : String → String → Option String) (crateName : String)
    (url : String) (visited : List String) (frontier : List String)
    (links : List String) : List String :=
  links.foldl (fun fr href =>
    if shouldFollow href then
      match resolve url href with
      | some newUrl =>
        if hasSub newUrl "docs.rs" && hasSub newUrl crateName
            && !visited.contains newUrl && should_process_url newUrl then
          fr ++ [newUrl]
        else fr
      | none => fr
    else fr) frontier

/-- One full processing of a fetched page: version extraction (first
processed page only), content extraction and document emission, then link
discovery while `processed < max_pages * 3 / 4`. -/
def processPage (resolve : String → String → Option String) (crateName : String)
    (maxPages : Nat) (s : CrawlState) (url : String) (page : ParsedPage) : CrawlState :=
  let version :=
    if s.version = none ∧ s.processed = 1 then extractVersionFromPage url page
    else s.version
  let pageContent := page.blocks.filter (fun b => !b.isEmpty)
  let documents :=
    if pageContent ≠ [] then
      s.documents ++ [{ path := stripDocsPrefix url, content := String.intercalate "\n\n" pageContent }]
    else s.documents
  let frontier :=
    if s.processed < maxPages * 3 / 4 then
      discoverLinks resolve crateName url s.visited s.frontier page.links
    else s.frontier
  { s with version := version, documents := documents, frontier := frontier }

/-- The crawl loop of `load_documents_from_docs_rs`.  `world` maps a URL to
the parsed page of a successful `fetch_with_retry` or `none` for a
permanent failure.  `fuel` bounds the number of loop iterations; every
claim below holds for every fuel.  The `fetched` field records each URL
passed to `fetch_with_retry`, in order. -/
def crawlLoop (world : String → Option ParsedPage) (resolve : String → String → Option String)
    (crateName : String) (maxPages : Nat) : Nat → CrawlState → CrawlState
  | 0, s => s
  | fuel + 1, s =>
    match s.frontier with
    | [] => s
    | url :: rest =>
      if s.processed ≥ maxPages then s
      else if url ∈ s.visited then
        crawlLoop world resolve crateName maxPages fuel { s with frontier := rest }
      else if !should_process_url url then
        crawlLoop world resolve crateName maxPages fuel
          { s with frontier := rest, visited := url :: s.visited }
      else
        let s1 := { s with
          frontier := rest
          visited := url :: s.visited
          processed := s.processed + 1
          fetched := s.fetched ++ [url] }
        match world url with
        | none => crawlLoop world resolve crateName maxPages fuel s1
        | some page =>
          crawlLoop world resolve crateName maxPages fuel
            (processPage resolve crateName maxPages s1 url page)

/-- The crawl's root URL for a crate. -/
def baseUrl (crateName : String) : String :=
  "https://docs.rs/" ++ crateName ++ "/latest/" ++ crateName ++ "/"

/-- Model of `load_documents_from_docs_rs`: seeds the frontier with the
root documentation URL, defaults the page budget to 10000, and runs the
crawl loop. -/
def load_documents_from_docs_rs (world : String → Option ParsedPage)
    (resolve : String → String → Option String) (crateName : String)
    (maxPages : Option Nat) (fuel : Nat) : CrawlState :=
  crawlLoop world resolve crateName (maxPages.getD 10000) fuel
    { documents := [], visited := [], frontier := [baseUrl crateName],
      version := none, processed := 0, fetched := [] }

/-! ## Service orchestrator model: readiness and the health handler
(src/src/bin/http_server.rs). -/

structure ReadinessState where
  database_connected : Bool
  embedding_initialized : Bool
  auto_population_complete : Bool
  deriving Repr, DecidableEq

/-- `ReadinessState::is_ready`: the server is ready as soon as database and
embeddings are initialized; auto-population runs in background. -/
def ReadinessState.is_ready (s : ReadinessState) : Bool :=
  s.database_connected && s.embedding_initialized

structure HealthResponse where
  status : Nat
  contentType : Option String
  body : String
  deriving Repr, DecidableEq

/-- Body of the 503 readiness response, carrying the three flags. -/
def notReadyBody (db emb auto : Bool) : String :=
  "\x7b\"status\":\"not_ready\",\"service\":\"rustdocs-mcp-server\",\"database_connected\":"
    ++ boolText db ++ ",\"embedding_initialized\":" ++ boolText emb
    ++ ",\"auto_population_complete\":" ++ boolText auto ++ "\x7d"

/-- Body of the 200 readiness response. -/
def readyBody (auto : Bool) : String :=
  "\x7b\"status\":\"ready\",\"service\":\"rustdocs-mcp-server\",\"auto_population_complete\":"
    ++ boolText auto ++ "\x7d"

/-- Model of `create_health_handler`: routes on `(method, path)`. -/
def create_health_handler (s : ReadinessState) (method : String) (path : String) : HealthResponse :=
  if method = "GET" ∧ path = "/health/live" then
    { status := 200
      contentType := some "application/json"
      body := "\x7b\"status\":\"alive\",\"service\":\"rustdocs-mcp-server\"\x7d" }
  else if method = "GET" ∧ path = "/health/ready" then
    if s.is_ready then
      { status := 200, contentType := some "application/json"
        body := readyBody s.auto_population_complete }
    else
      { status := 503, contentType := some "application/json"
        body := notReadyBody s.database_connected s.embedding_initialized s.auto_population_complete }
  else if method = "GET" ∧ path = "/health" then
    { status := 200
      contentType := some "application/json"
      body := "\x7b\"status\":\"alive\",\"service\":\"rustdocs-mcp-server\",\"note\":\"Use /health/live or /health/ready for specific checks\"\x7d" }
  else
    { status := 404, contentType := none, body := "Not Found" }

/-! ## Tool model: `add_crate` (src/src/bin/http_server.rs).

The tool validates its arguments, upserts the configuration, creates a job
and returns `"Ingestion has started"` immediately; the background
population task is spawned afterwards and only affects the availability
set.  The two external effects are passed in as outcome parameters: the
result of the configuration upsert and the result of the later background
ingestion.  The returned pair is (synchronous tool reply, availability-set
insertion performed by the background task). -/

inductive ToolReply where
  | success (text : String)
  | invalidParams (msg : String)
  | internalError (msg : String)
  deriving Repr, DecidableEq

structure AddCrateArgs where
  crate_name : String
  version_spec : String
  features : Option (List String)
  enabled : Option Bool
  expected_docs : Option Int
  deriving Repr

/-- Model of `McpHandler::add_crate`.  `upsertOutcome` is the store's answer
to `upsert_crate_config`; `ingestionOutcome` is the eventual result of the
spawned `populate_crate` task (it contributes only the availability-set
update, never the reply). -/
def add_crate (args : AddCrateArgs) (upsertOutcome : Except String CrateConfig)
    (ingestionOutcome : Except String Unit) : ToolReply × Option String :=
  if args.crate_name.isEmpty then
    (.invalidParams "Crate name cannot be empty", none)
  else if args.version_spec ≠ "latest" ∧ ¬ args.version_spec.data.any (fun c => c.isDigit) then
    (.invalidParams "Version spec must be 'latest' or a valid version number", none)
  else
    match upsertOutcome with
    | .ok _saved =>
      (.success "Ingestion has started",
        match ingestionOutcome with
        | .ok _ => some args.crate_name
        | .error _ => none)
    | .error e => (.internalError ("Failed to save crate configuration: " ++ e), none)

/-! ## Theorems -/

/-- Helper: the conflict-or-not decision of `updateFirstConfig` does not
depend on the timestamp. -/
theorem updateFirstConfig_none_time {cfg : CrateConfig} {t t' : Nat} :
    ∀ {l : List CrateConfig}, updateFirstConfig cfg t l = none →
    updateFirstConfig cfg t' l = none := by
  intro l
  induction l with
  | nil => intro _; rfl
  | cons r rs ih =>
    intro h
    by_cases hc : r.name = cfg.name ∧ r.version_spec = cfg.version_spec
    · rw [updateFirstConfig, if_pos hc] at h
      exact absurd h (by simp)
    · rw [updateFirstConfig, if_neg hc] at h
      rw [updateFirstConfig, if_neg hc]
      cases h2 : updateFirstConfig cfg t rs with
      | none => rw [ih h2]
      | some p => rw [h2] at h; exact absurd h (by simp)

/-- Helper: `updateFirstConfig` distributes over an append whose left part
has no conflicting row. -/
theorem updateFirstConfig_append_none {cfg : CrateConfig} {t : Nat}
    {l1 : List CrateConfig} (l2 : List CrateConfig)
    (h : updateFirstConfig cfg t l1 = none) :
    updateFirstConfig cfg t (l1 ++ l2) =
      (updateFirstConfig cfg t l2).map (fun p => (l1 ++ p.1, p.2)) := by
  induction l1 with
  | nil =>
    cases h2 : updateFirstConfig cfg t l2 with
    | none => simp [h2]
    | some p => simp [h2]
  | cons r rs ih =>
    by_cases hc : r.name = cfg.name ∧ r.version_spec = cfg.version_spec
    · rw [updateFirstConfig, if_pos hc] at h
      exact absurd h (by simp)
    · rw [updateFirstConfig, if_neg hc] at h
      cases h2 : updateFirstConfig cfg t rs with
      | none =>
        have hrec := ih (by rw [h2])
        rw [List.cons_append, updateFirstConfig, if_neg hc, hrec]
        cases h3 : updateFirstConfig cfg t l2 with
        | none => rfl
        | some p => rfl
      | some p => rw [h2] at h; exact absurd h (by simp)

/-- Helper: the row returned by a successful conflict update is the stored
row with the excluded values applied. -/
theorem updateFirstConfig_result_shape {cfg : CrateConfig} {t : Nat} :
    ∀ {l rows : List CrateConfig} {x : CrateConfig},
      updateFirstConfig cfg t l = some (rows, x) →
      ∃ r0, x = applyConflictUpdate r0 cfg t := by
  intro l
  induction l with
  | nil => intro rows x h; exact absurd h (by simp [updateFirstConfig])
  | cons r rs ih =>
    intro rows x h
    by_cases hc : r.name = cfg.name ∧ r.version_spec = cfg.version_spec
    · rw [updateFirstConfig, if_pos hc] at h
      simp only [Option.some.injEq, Prod.mk.injEq] at h
      exact ⟨r, h.2.symm⟩
    · rw [updateFirstConfig, if_neg hc] at h
      cases h2 : updateFirstConfig cfg t rs with
      | none => rw [h2] at h; exact absurd h (by simp)
      | some p =>
        obtain ⟨p1, p2⟩ := p
        rw [h2] at h
        simp only [Option.some.injEq, Prod.mk.injEq] at h
        exact ih (h.2 ▸ h2)

/-- Helper: re-running the conflict update on the updated table hits the
same row and applies the excluded values again. -/
theorem updateFirstConfig_again {cfg : CrateConfig} {t t' : Nat} :
    ∀ {l rows : List CrateConfig} {x : CrateConfig},
      updateFirstConfig cfg t l = some (rows, x) →
      ∃ rows', updateFirstConfig cfg t' rows = some (rows', applyConflictUpdate x cfg t') := by
  intro l
  induction l with
  | nil => intro rows x h; exact absurd h (by simp [updateFirstConfig])
  | cons r rs ih =>
    intro rows x h
    by_cases hc : r.name = cfg.name ∧ r.version_spec = cfg.version_spec
    · rw [updateFirstConfig, if_pos hc] at h
      simp only [Option.some.injEq, Prod.mk.injEq] at h
      obtain ⟨hrows, hx⟩ := h
      refine ⟨applyConflictUpdate (applyConflictUpdate r cfg t) cfg t' :: rs, ?_⟩
      have hc' : (applyConflictUpdate r cfg t).name = cfg.name ∧
          (applyConflictUpdate r cfg t).version_spec = cfg.version_spec := hc
      rw [← hrows, updateFirstConfig, if_pos hc', ← hx]
    · rw [updateFirstConfig, if_neg hc] at h
      cases h2 : updateFirstConfig cfg t rs with
      | none => rw [h2] at h; exact absurd h (by simp)
      | some p =>
        obtain ⟨p1, p2⟩ := p
        rw [h2] at h
        simp only [Option.some.injEq, Prod.mk.injEq] at h
        obtain ⟨hrows, hx⟩ := h
        obtain ⟨rows', hr⟩ := ih (hx ▸ h2)
        refine ⟨r :: rows', ?_⟩
        rw [← hrows, updateFirstConfig, if_neg hc, hr]

/-- Helper: applying the conflict update twice with the same configuration
only moves the `updated_at` column the second time. -/
theorem applyConflictUpdate_twice (r cfg : CrateConfig) (t1 t2 : Nat) :
    applyConflictUpdate (applyConflictUpdate r cfg t1) cfg t2 =
      { applyConflictUpdate r cfg t1 with updated_at := t2 } := rfl

/-- C8: calling `upsert_crate_config` twice in a row with the same
configuration value yields a stored row equal after the second call to the
row after the first call in every field except `updated_at` (same id, name,
version_spec, current_version, features, expected_docs, enabled,
last_checked, last_populated, created_at). -/
theorem c8_upsert_config_idempotent (s : ConfigDb) (cfg : CrateConfig) (t1 t2 : Nat) :
    (upsert_crate_config (upsert_crate_config s cfg t1).1 cfg t2).2 =
      { (upsert_crate_config s cfg t1).2 with updated_at := t2 } := by
  cases h : updateFirstConfig cfg t1 s.configs with
  | none =>
    simp only [upsert_crate_config, h]
    rw [updateFirstConfig_append_none _ (updateFirstConfig_none_time h)]
    simp [updateFirstConfig, applyConflictUpdate]
  | some p =>
    obtain ⟨rows, x⟩ := p
    simp only [upsert_crate_config, h]
    obtain ⟨rows', hr⟩ := @updateFirstConfig_again cfg t1 t2 s.configs rows x h
    obtain ⟨r0, hx⟩ := updateFirstConfig_result_shape h
    subst hx
    simp [hr, applyConflictUpdate_twice]

/-- C8 witness: a concrete double upsert into an empty table. -/
theorem c8_upsert_config_idempotent_witness :
    (upsert_crate_config
        (upsert_crate_config ⟨[], 1⟩
          ⟨0, "serde", "latest", none, ["derive"], 1000, true, none, none, 7, 7⟩ 5).1
        ⟨0, "serde", "latest", none, ["derive"], 1000, true, none, none, 7, 7⟩ 9).2 =
      { (upsert_crate_config ⟨[], 1⟩
          ⟨0, "serde", "latest", none, ["derive"], 1000, true, none, none, 7, 7⟩ 5).2 with
        updated_at := 9 } :=
  c8_upsert_config_idempotent ⟨[], 1⟩
    ⟨0, "serde", "latest", none, ["derive"], 1000, true, none, none, 7, 7⟩ 5 9

/-- C7: `GET /health/ready` answers 200 exactly when the database-connected
and embedding-initialized flags are both set (independently of the
auto-population flag); otherwise it answers 503 with a JSON body carrying
the three readiness flags (the body determines them uniquely). -/
theorem c7_health_ready (s : ReadinessState) :
    ((create_health_handler s "GET" "/health/ready").status = 200 ↔
      (s.database_connected = true ∧ s.embedding_initialized = true)) ∧
    ((s.database_connected = false ∨ s.embedding_initialized = false) →
      (create_health_handler s "GET" "/health/ready").status = 503 ∧
      (create_health_handler s "GET" "/health/ready").body =
        notReadyBody s.database_connected s.embedding_initialized s.auto_population_complete) ∧
    (∀ a b c a' b' c' : Bool,
      notReadyBody a b c = notReadyBody a' b' c' → a = a' ∧ b = b' ∧ c = c') := by
  obtain ⟨db, emb, auto⟩ := s
  cases db <;> cases emb <;> cases auto <;> exact (by decide)

/-- C7 witness: with only the database flag set, readiness reports 503 and
the flag-carrying body. -/
theorem c7_health_ready_witness :
    ((false : Bool) = false ∨ (false : Bool) = false) ∧
    ((create_health_handler ⟨true, false, false⟩ "GET" "/health/ready").status = 503 ∧
      (create_health_handler ⟨true, false, false⟩ "GET" "/health/ready").body =
        notReadyBody true false false) :=
  ⟨Or.inl rfl, ((c7_health_ready ⟨true, false, false⟩).2.1 (Or.inr rfl))⟩

/-- C9: when validation passes and the configuration upsert succeeds,
`add_crate` replies `"Ingestion has started"`, and the reply does not
depend on the outcome of the background ingestion task (which only
contributes the availability-set update). -/
theorem c9_add_crate_sync_reply (args : AddCrateArgs) (cfg : CrateConfig)
    (hname : args.crate_name.isEmpty = false)
    (hver : args.version_spec = "latest" ∨ args.version_spec.data.any (fun c => c.isDigit) = true) :
    ∀ o1 o2 : Except String Unit,
      (add_crate args (.ok cfg) o1).1 = .success "Ingestion has started" ∧
      (add_crate args (.ok cfg) o1).1 = (add_crate args (.ok cfg) o2).1 := by
  intro o1 o2
  have hv : ¬ (args.version_spec ≠ "latest" ∧ ¬ args.version_spec.data.any (fun c => c.isDigit)) := by
    rcases hver with h | h
    · exact fun hc => hc.1 h
    · exact fun hc => hc.2 h
  have hn : ¬ (args.crate_name.isEmpty = true) := by simp [hname]
  simp only [add_crate, if_neg hn, if_neg hv]
  exact ⟨trivial, trivial⟩

/-- C9 witness: a concrete call whose background ingestion fails still gets
the same synchronous success reply. -/
theorem c9_add_crate_sync_reply_witness :
    ("tokio".isEmpty = false) ∧
    ((add_crate ⟨"tokio", "latest", none, none, none⟩
        (.ok ⟨1, "tokio", "latest", none, [], 1000, true, none, none, 0, 0⟩) (.ok ())).1 =
      .success "Ingestion has started" ∧
      (add_crate ⟨"tokio", "latest", none, none, none⟩
        (.ok ⟨1, "tokio", "latest", none, [], 1000, true, none, none, 0, 0⟩) (.ok ())).1 =
      (add_crate ⟨"tokio", "latest", none, none, none⟩
        (.ok ⟨1, "tokio", "latest", none, [], 1000, true, none, none, 0, 0⟩) (.error "boom")).1) :=
  ⟨rfl,
    c9_add_crate_sync_reply ⟨"tokio", "latest", none, none, none⟩
      ⟨1, "tokio", "latest", none, [], 1000, true, none, none, 0, 0⟩
      rfl (Or.inl rfl) (.ok ()) (.error "boom")⟩

/-- Helper: the Bool key test agrees with propositional equality. -/
theorem rowKeyMatches_iff (r : DocRow) (n p : String) :
    rowKeyMatches r n p = true ↔ (r.crate_name = n ∧ r.doc_path = p) := by
  simp [rowKeyMatches]

/-- Helper: a single batch-upsert step never rebinds rows of an existing
`(crate_name, doc_path)` key: if every row with the key has `crate_id =
cid0` before the step, that still holds after it, and the key stays
present. -/
theorem insertEmbeddingRow_key_invariant (t : List DocRow) (cid : Int)
    (name p' c' : String) (e' : List ℚ) (tk' : Int) (now : Nat)
    (name0 path0 : String) (cid0 : Int)
    (hE : ∃ r ∈ t, r.crate_name = name0 ∧ r.doc_path = path0)
    (hA : ∀ r ∈ t, r.crate_name = name0 → r.doc_path = path0 → r.crate_id = cid0) :
    (∃ r ∈ insertEmbeddingRow t cid name p' c' e' tk' now,
        r.crate_name = name0 ∧ r.doc_path = path0) ∧
    (∀ r ∈ insertEmbeddingRow t cid name p' c' e' tk' now,
        r.crate_name = name0 → r.doc_path = path0 → r.crate_id = cid0) := by
  by_cases hany : t.any (fun r => rowKeyMatches r name p') = true
  · rw [insertEmbeddingRow, if_pos hany]
    constructor
    · obtain ⟨r, hr, hk⟩ := hE
      refine ⟨if rowKeyMatches r name p' then
          { r with content := c', embedding := e', token_count := tk', created_at := now }
        else r, List.mem_map_of_mem _ hr, ?_⟩
      by_cases hm : rowKeyMatches r name p' = true
      · simpa [hm] using hk
      · simpa [hm] using hk
    · intro r hr hn hp
      obtain ⟨r1, hr1, heq⟩ := List.mem_map.mp hr
      by_cases hm : rowKeyMatches r1 name p' = true
      · rw [if_pos hm] at heq
        subst heq
        exact hA r1 hr1 hn hp
      · rw [if_neg hm] at heq
        subst heq
        exact hA r1 hr1 hn hp
  · rw [insertEmbeddingRow, if_neg hany]
    constructor
    · obtain ⟨r, hr, hk⟩ := hE
      exact ⟨r, List.mem_append_left _ hr, hk⟩
    · intro r hr hn hp
      rcases List.mem_append.mp hr with hin | hnew
      · exact hA r hin hn hp
      · exfalso
        simp only [List.mem_singleton] at hnew
        subst hnew
        simp only at hn hp
        obtain ⟨r1, hr1, hk1⟩ := hE
        refine hany ?_
        refine List.any_eq_true.mpr ⟨r1, hr1, ?_⟩
        exact (rowKeyMatches_iff r1 name p').mpr ⟨by rw [hk1.1, ← hn], by rw [hk1.2, ← hp]⟩

/-- Helper: the whole batch fold preserves the key invariant. -/
theorem batchFold_key_invariant (cid : Int) (name : String) (now : Nat)
    (name0 path0 : String) (cid0 : Int) :
    ∀ (batch : List (String × String × List ℚ × Int)) (t : List DocRow),
      (∃ r ∈ t, r.crate_name = name0 ∧ r.doc_path = path0) →
      (∀ r ∈ t, r.crate_name = name0 → r.doc_path = path0 → r.crate_id = cid0) →
      (∀ r ∈ batch.foldl (fun t item =>
          insertEmbeddingRow t cid name item.1 item.2.1 item.2.2.1 item.2.2.2 now) t,
        r.crate_name = name0 → r.doc_path = path0 → r.crate_id = cid0) := by
  intro batch
  induction batch with
  | nil => intro t _ hA; exact hA
  | cons item rest ih =>
    intro t hE hA
    obtain ⟨hE', hA'⟩ := insertEmbeddingRow_key_invariant t cid name item.1 item.2.1
      item.2.2.1 item.2.2.2 now name0 path0 cid0 hE hA
    exact ih _ hE' hA'

/-- C10: when a `(crate_name, doc_path)` key already exists, the batch
upsert's conflict arm replaces only `content`, `embedding`, `token_count`
and `created_at` — the stored `crate_id` survives even when the call
supplies a different one, so re-ingestion never rebinds an existing
embedding row to a new package id. -/
theorem c10_conflict_update_preserves_crate_id (db : Db) (cid : Int)
    (name path : String) (batch : List (String × String × List ℚ × Int)) (now : Nat)
    (r0 : DocRow) (hmem : r0 ∈ db.doc_embeddings)
    (hname : r0.crate_name = name) (hpath : r0.doc_path = path)
    (huniq : ∀ r ∈ db.doc_embeddings, r.crate_name = name → r.doc_path = path → r = r0) :
    (∀ r ∈ (insert_embeddings_batch db cid name batch now).doc_embeddings,
        r.crate_name = name → r.doc_path = path → r.crate_id = r0.crate_id) ∧
    (∀ (content : String) (emb : List ℚ) (tok : Int),
      (insert_embeddings_batch db cid name [(path, content, emb, tok)] now).doc_embeddings =
        db.doc_embeddings.map (fun r =>
          if rowKeyMatches r name path then
            { r with content := content, embedding := emb, token_count := tok, created_at := now }
          else r)) := by
  constructor
  · intro r hr
    have hA : ∀ r ∈ db.doc_embeddings,
        r.crate_name = name → r.doc_path = path → r.crate_id = r0.crate_id := by
      intro r hr hn hp
      rw [huniq r hr hn hp]
    exact batchFold_key_invariant cid name now name path r0.crate_id batch
      db.doc_embeddings ⟨r0, hmem, hname, hpath⟩ hA r hr
  · intro content emb tok
    have hany : db.doc_embeddings.any (fun r => rowKeyMatches r name path) = true :=
      List.any_eq_true.mpr ⟨r0, hmem, (rowKeyMatches_iff r0 name path).mpr ⟨hname, hpath⟩⟩
    simp only [insert_embeddings_batch, update_crate_stats, List.foldl_cons, List.foldl_nil]
    rw [insertEmbeddingRow, if_pos hany]

/-- C10 witness: a one-row table re-ingested under a different crate id
keeps the original `crate_id` and replaces only the data columns. -/
theorem c10_conflict_update_preserves_crate_id_witness :
    ((⟨7, "serde", "serde/latest/serde/", "old", [1], 3, 0⟩ : DocRow) ∈
        [(⟨7, "serde", "serde/latest/serde/", "old", [1], 3, 0⟩ : DocRow)]) ∧
    (∀ r ∈ (insert_embeddings_batch ⟨[], [⟨7, "serde", "serde/latest/serde/", "old", [1], 3, 0⟩]⟩
          99 "serde" [("serde/latest/serde/", "new", [2], 5)] 1).doc_embeddings,
        r.crate_name = "serde" → r.doc_path = "serde/latest/serde/" → r.crate_id = 7) :=
  ⟨List.mem_singleton.mpr rfl,
    (c10_conflict_update_preserves_crate_id
      ⟨[], [⟨7, "serde", "serde/latest/serde/", "old", [1], 3, 0⟩]⟩ 99 "serde"
      "serde/latest/serde/" [("serde/latest/serde/", "new", [2], 5)] 1
      ⟨7, "serde", "serde/latest/serde/", "old", [1], 3, 0⟩
      (List.mem_singleton.mpr rfl) rfl rfl
      (by intro r hr _ _; simpa using hr)).1⟩

/-- C2: after `insert_embeddings_batch`, the crate row of the supplied
package id carries `total_docs` equal to the number of embedding rows
belonging to that package id and `total_tokens` equal to the sum of their
`token_count` columns. -/
theorem c2_batch_insert_refreshes_stats (db : Db) (cid : Int) (name : String)
    (batch : List (String × String × List ℚ × Int)) (now : Nat) :
    ∀ c ∈ (insert_embeddings_batch db cid name batch now).crates, c.id = cid →
      c.total_docs = (((insert_embeddings_batch db cid name batch now).doc_embeddings.filter
          (fun r => r.crate_id == cid)).length : Int) ∧
      c.total_tokens = (((insert_embeddings_batch db cid name batch now).doc_embeddings.filter
          (fun r => r.crate_id == cid)).map (fun r => r.token_count)).sum := by
  intro c hc hid
  simp only [insert_embeddings_batch, update_crate_stats] at hc ⊢
  obtain ⟨c0, _hc0, heq⟩ := List.mem_map.mp hc
  by_cases h0 : (c0.id == cid) = true
  · rw [if_pos h0] at heq
    subst heq
    exact ⟨rfl, rfl⟩
  · rw [if_neg h0] at heq
    subst heq
    exact absurd (beq_iff_eq.mpr hid) h0

/-- C2 witness: a concrete batch insert into a one-crate database; the
refreshed row records 2 documents and 6 tokens. -/
theorem c2_batch_insert_refreshes_stats_witness :
    ((⟨3, "serde", none, 0, 2, 6⟩ : CrateRow) ∈
      (insert_embeddings_batch ⟨[⟨3, "serde", none, 0, 99, 99⟩], []⟩ 3 "serde"
        [("a", "x", [1], 2), ("b", "y", [2], 4)] 1).crates) ∧
    ((⟨3, "serde", none, 0, 2, 6⟩ : CrateRow).id = 3) ∧
    ((⟨3, "serde", none, 0, 2, 6⟩ : CrateRow).total_docs =
      (((insert_embeddings_batch ⟨[⟨3, "serde", none, 0, 99, 99⟩], []⟩ 3 "serde"
          [("a", "x", [1], 2), ("b", "y", [2], 4)] 1).doc_embeddings.filter
        (fun r => r.crate_id == 3)).length : Int)) :=
  ⟨by decide, rfl,
    (c2_batch_insert_refreshes_stats ⟨[⟨3, "serde", none, 0, 99, 99⟩], []⟩ 3 "serde"
      [("a", "x", [1], 2), ("b", "y", [2], 4)] 1 ⟨3, "serde", none, 0, 2, 6⟩
      (by decide) rfl).1⟩

/-- Helper: full behaviour of the retry loop from attempt counter `a`:
it issues between 1 and `maxRetries - a + 1` requests, its backoff sleeps
follow the doubling-capped-at-30000 sequence from the current delay, and
when every response is retryable it exhausts the budget exactly and
returns an error. -/
theorem fetchGo_spec (oracle : Nat → HttpResp) (m : Nat) :
    ∀ (k a delay : Nat), m - a ≤ k →
      (1 ≤ (fetchGo oracle m a delay).2.1 ∧
        (fetchGo oracle m a delay).2.1 ≤ m - a + 1) ∧
      (fetchGo oracle m a delay).2.2 =
        expectedDelays delay ((fetchGo oracle m a delay).2.1 - 1) ∧
      ((∀ n, isRetryable (oracle n) = true) →
        (∃ e, (fetchGo oracle m a delay).1 = .error e) ∧
        (fetchGo oracle m a delay).2.1 = m - a + 1) := by
  intro k
  induction k with
  | zero =>
    intro a delay hk
    have hm : a ≥ m := by omega
    rw [fetchGo]
    cases ho : oracle a with
    | success b =>
      cases b with
      | some t =>
        dsimp only
        refine ⟨⟨le_refl 1, by omega⟩, rfl, fun hret => ?_⟩
        have h1 := hret a
        rw [ho] at h1
        simp [isRetryable] at h1
      | none =>
        simp only [dif_pos hm]
        exact ⟨⟨le_refl 1, by omega⟩, rfl, fun _ => ⟨⟨.http, rfl⟩, by omega⟩⟩
    | tooMany =>
      simp only [dif_pos hm]
      exact ⟨⟨le_refl 1, by omega⟩, rfl, fun _ => ⟨⟨.rateLimited, rfl⟩, by omega⟩⟩
    | notFound =>
      dsimp only
      refine ⟨⟨le_refl 1, by omega⟩, rfl, fun hret => ?_⟩
      have h1 := hret a
      rw [ho] at h1
      simp [isRetryable] at h1
    | clientError =>
      dsimp only
      refine ⟨⟨le_refl 1, by omega⟩, rfl, fun hret => ?_⟩
      have h1 := hret a
      rw [ho] at h1
      simp [isRetryable] at h1
    | serverError =>
      simp only [dif_pos hm]
      exact ⟨⟨le_refl 1, by omega⟩, rfl, fun _ => ⟨⟨.network, rfl⟩, by omega⟩⟩
    | transportError =>
      simp only [dif_pos hm]
      exact ⟨⟨le_refl 1, by omega⟩, rfl, fun _ => ⟨⟨.http, rfl⟩, by omega⟩⟩
  | succ k ih =>
    intro a delay hk
    rw [fetchGo]
    cases ho : oracle a with
    | success b =>
      cases b with
      | some t =>
        dsimp only
        refine ⟨⟨le_refl 1, by omega⟩, rfl, fun hret => ?_⟩
        have h1 := hret a
        rw [ho] at h1
        simp [isRetryable] at h1
      | none =>
        by_cases hm : a ≥ m
        · simp only [dif_pos hm]
          exact ⟨⟨le_refl 1, by omega⟩, rfl, fun _ => ⟨⟨.http, rfl⟩, by omega⟩⟩
        · simp only [dif_neg hm]
          obtain ⟨⟨hpos, hle⟩, hsl, hexh⟩ := ih (a + 1) (min (delay * 2) 30000) (by omega)
          refine ⟨⟨by omega, by omega⟩, ?_, fun hret => ?_⟩
          · simp only [Nat.add_sub_cancel]
            have : (fetchGo oracle m (a + 1) (min (delay * 2) 30000)).2.1 =
              ((fetchGo oracle m (a + 1) (min (delay * 2) 30000)).2.1 - 1) + 1 := by omega
            rw [this, expectedDelays, hsl]
          · obtain ⟨⟨e, he⟩, hcnt⟩ := hexh hret
            exact ⟨⟨e, he⟩, by omega⟩
    | tooMany =>
      by_cases hm : a ≥ m
      · simp only [dif_pos hm]
        exact ⟨⟨le_refl 1, by omega⟩, rfl, fun _ => ⟨⟨.rateLimited, rfl⟩, by omega⟩⟩
      · simp only [dif_neg hm]
        obtain ⟨⟨hpos, hle⟩, hsl, hexh⟩ := ih (a + 1) (min (delay * 2) 30000) (by omega)
        refine ⟨⟨by omega, by omega⟩, ?_, fun hret => ?_⟩
        · simp only [Nat.add_sub_cancel]
          have : (fetchGo oracle m (a + 1) (min (delay * 2) 30000)).2.1 =
            ((fetchGo oracle m (a + 1) (min (delay * 2) 30000)).2.1 - 1) + 1 := by omega
          rw [this, expectedDelays, hsl]
        · obtain ⟨⟨e, he⟩, hcnt⟩ := hexh hret
          exact ⟨⟨e, he⟩, by omega⟩
    | notFound =>
      dsimp only
      refine ⟨⟨le_refl 1, by omega⟩, rfl, fun hret => ?_⟩
      have h1 := hret a
      rw [ho] at h1
      simp [isRetryable] at h1
    | clientError =>
      dsimp only
      refine ⟨⟨le_refl 1, by omega⟩, rfl, fun hret => ?_⟩
      have h1 := hret a
      rw [ho] at h1
      simp [isRetryable] at h1
    | serverError =>
      by_cases hm : a ≥ m
      · simp only [dif_pos hm]
        exact ⟨⟨le_refl 1, by omega⟩, rfl, fun _ => ⟨⟨.network, rfl⟩, by omega⟩⟩
      · simp only [dif_neg hm]
        obtain ⟨⟨hpos, hle⟩, hsl, hexh⟩ := ih (a + 1) (min (delay * 2) 30000) (by omega)
        refine ⟨⟨by omega, by omega⟩, ?_, fun hret => ?_⟩
        · simp only [Nat.add_sub_cancel]
          have : (fetchGo oracle m (a + 1) (min (delay * 2) 30000)).2.1 =
            ((fetchGo oracle m (a + 1) (min (delay * 2) 30000)).2.1 - 1) + 1 := by omega
          rw [this, expectedDelays, hsl]
        · obtain ⟨⟨e, he⟩, hcnt⟩ := hexh hret
          exact ⟨⟨e, he⟩, by omega⟩
    | transportError =>
      by_cases hm : a ≥ m
      · simp only [dif_pos hm]
        exact ⟨⟨le_refl 1, by omega⟩, rfl, fun _ => ⟨⟨.http, rfl⟩, by omega⟩⟩
      · simp only [dif_neg hm]
        obtain ⟨⟨hpos, hle⟩, hsl, hexh⟩ := ih (a + 1) (min (delay * 2) 30000) (by omega)
        refine ⟨⟨by omega, by omega⟩, ?_, fun hret => ?_⟩
        · simp only [Nat.add_sub_cancel]
          have : (fetchGo oracle m (a + 1) (min (delay * 2) 30000)).2.1 =
            ((fetchGo oracle m (a + 1) (min (delay * 2) 30000)).2.1 - 1) + 1 := by omega
          rw [this, expectedDelays, hsl]
        · obtain ⟨⟨e, he⟩, hcnt⟩ := hexh hret
          exact ⟨⟨e, he⟩, by omega⟩

/-- C4 counterexample: with `max_retries = 3` (the value used by the
crawler), a URL that is rate-limited on every attempt receives 4 request
attempts, not at most 3: the loop only gives up once the attempt counter
has reached `max_retries` after already issuing a request. -/
theorem c4_three_attempts_counterexample :
    ¬ ((fetch_with_retry (fun _ => HttpResp.tooMany) 3).2.1 ≤ 3) := by
  have h := (fetchGo_spec (fun _ => HttpResp.tooMany) 3 3 0 1000 (by omega)).2.2
    (fun n => rfl)
  have h4 : (fetch_with_retry (fun _ => HttpResp.tooMany) 3).2.1 = 4 := h.2
  omega

/-- C4 (amended): for every response oracle, `fetch_with_retry` with
`max_retries = 3` performs at most 4 request attempts (one initial attempt
plus up to 3 retries), sleeping the doubling backoff sequence that starts
at 1000 ms and is capped at 30000 ms between attempts; when every response
is retryable it performs exactly 4 attempts and returns a permanent
failure. -/
theorem c4_retry_budget (oracle : Nat → HttpResp) :
    (fetch_with_retry oracle 3).2.1 ≤ 4 ∧
    (fetch_with_retry oracle 3).2.2 =
      expectedDelays 1000 ((fetch_with_retry oracle 3).2.1 - 1) ∧
    ((∀ n, isRetryable (oracle n) = true) →
      (∃ e, (fetch_with_retry oracle 3).1 = .error e) ∧
      (fetch_with_retry oracle 3).2.1 = 4) := by
  obtain ⟨⟨_, hle⟩, hsl, hexh⟩ := fetchGo_spec oracle 3 3 0 1000 (by omega)
  exact ⟨by simpa using hle, hsl, fun hret => by simpa using hexh hret⟩

/-- C4 witness: the always-rate-limited oracle exhausts the budget with 4
attempts, sleeping 1000, 2000 and 4000 ms. -/
theorem c4_retry_budget_witness :
    (∀ n : Nat, isRetryable ((fun _ : Nat => HttpResp.tooMany) n) = true) ∧
    (∃ e, (fetch_with_retry (fun _ : Nat => HttpResp.tooMany) 3).1 = .error e) ∧
    (fetch_with_retry (fun _ : Nat => HttpResp.tooMany) 3).2.1 = 4 :=
  ⟨fun _ => rfl, (c4_retry_budget (fun _ : Nat => HttpResp.tooMany)).2.2 (fun _ => rfl)⟩

/-- Helper: `processPage` never touches the bookkeeping fields. -/
theorem processPage_keeps_bookkeeping (resolve : String → String → Option String)
    (crateName : String) (maxPages : Nat) (s : CrawlState) (url : String) (page : ParsedPage) :
    (processPage resolve crateName maxPages s url page).processed = s.processed ∧
    (processPage resolve crateName maxPages s url page).fetched = s.fetched ∧
    (processPage resolve crateName maxPages s url page).visited = s.visited :=
  ⟨rfl, rfl, rfl⟩

/-- Helper: a crawl with an empty frontier is finished. -/
theorem crawlLoop_nil_frontier (world : String → Option ParsedPage)
    (resolve : String → String → Option String) (crateName : String) (maxPages : Nat)
    (fuel : Nat) (s : CrawlState) (h : s.frontier = []) :
    crawlLoop world resolve crateName maxPages fuel s = s := by
  cases fuel with
  | zero => rfl
  | succ fuel => rw [crawlLoop, h]

/-- Helper: the crawl loop keeps `processed ≤ maxPages` and counts exactly
one fetch attempt per processed page. -/
theorem crawlLoop_processed_bound (world : String → Option ParsedPage)
    (resolve : String → String → Option String) (crateName : String) (maxPages : Nat) :
    ∀ (fuel : Nat) (s : CrawlState), s.processed ≤ maxPages →
      s.fetched.length = s.processed →
      (crawlLoop world resolve crateName maxPages fuel s).processed ≤ maxPages ∧
      (crawlLoop world resolve crateName maxPages fuel s).fetched.length =
        (crawlLoop world resolve crateName maxPages fuel s).processed := by
  intro fuel
  induction fuel with
  | zero => intro s h1 h2; exact ⟨h1, h2⟩
  | succ fuel ih =>
    intro s h1 h2
    rw [crawlLoop]
    cases hf : s.frontier with
    | nil => exact ⟨h1, h2⟩
    | cons url rest =>
      dsimp only
      by_cases hb : s.processed ≥ maxPages
      · rw [if_pos hb]; exact ⟨h1, h2⟩
      · rw [if_neg hb]
        by_cases hv : url ∈ s.visited
        · rw [if_pos hv]; exact ih _ h1 h2
        · rw [if_neg hv]
          by_cases hp : should_process_url url = true
          · simp only [hp, Bool.not_true, if_neg (by simp : ¬ (false = true))]
            cases hw : world url with
            | none =>
              exact ih _ (by simp; omega) (by simp [h2])
            | some page =>
              refine ih _ ?_ ?_
              · simp [processPage]; omega
              · simp [processPage, h2]
          · have hp' : should_process_url url = false := by
              cases hq : should_process_url url
              · rfl
              · exact absurd hq hp
            simp only [hp', Bool.not_false, if_pos rfl]
            exact ih _ h1 h2

/-- C5: the crawler never processes (counts and attempts to fetch) more
than `max_pages` pages, whatever the world, the link resolution, the crate
and the fuel; moreover it issues exactly one fetch attempt per processed
page. -/
theorem c5_crawl_honors_max_pages (world : String → Option ParsedPage)
    (resolve : String → String → Option String) (crateName : String)
    (maxPages : Option Nat) (fuel : Nat) :
    (load_documents_from_docs_rs world resolve crateName maxPages fuel).processed ≤
      maxPages.getD 10000 ∧
    (load_documents_from_docs_rs world resolve crateName maxPages fuel).fetched.length =
      (load_documents_from_docs_rs world resolve crateName maxPages fuel).processed :=
  crawlLoop_processed_bound world resolve crateName (maxPages.getD 10000) fuel
    { documents := [], visited := [], frontier := [baseUrl crateName],
      version := none, processed := 0, fetched := [] }
    (Nat.zero_le _) rfl

/-- C5 witness: a concrete two-page budget on an always-empty world. -/
theorem c5_crawl_honors_max_pages_witness :
    (load_documents_from_docs_rs (fun _ => some ⟨none, [], []⟩) (fun _ _ => none)
        "serde" (some 2) 9).processed ≤ 2 ∧
    (load_documents_from_docs_rs (fun _ => some ⟨none, [], []⟩) (fun _ _ => none)
        "serde" (some 2) 9).fetched.length =
      (load_documents_from_docs_rs (fun _ => some ⟨none, [], []⟩) (fun _ _ => none)
        "serde" (some 2) 9).processed :=
  c5_crawl_honors_max_pages (fun _ => some ⟨none, [], []⟩) (fun _ _ => none) "serde" (some 2) 9

/-- Helper: every URL the crawl ever hands to `fetch_with_retry` passed the
URL policy. -/
theorem crawlLoop_fetched_filtered (world : String → Option ParsedPage)
    (resolve : String → String → Option String) (crateName : String) (maxPages : Nat) :
    ∀ (fuel : Nat) (s : CrawlState), (∀ u ∈ s.fetched, should_process_url u = true) →
      ∀ u ∈ (crawlLoop world resolve crateName maxPages fuel s).fetched,
        should_process_url u = true := by
  intro fuel
  induction fuel with
  | zero => intro s h; exact h
  | succ fuel ih =>
    intro s h
    rw [crawlLoop]
    cases hf : s.frontier with
    | nil => exact h
    | cons url rest =>
      dsimp only
      by_cases hb : s.processed ≥ maxPages
      · rw [if_pos hb]; exact h
      · rw [if_neg hb]
        by_cases hv : url ∈ s.visited
        · rw [if_pos hv]; exact ih _ h
        · rw [if_neg hv]
          by_cases hp : should_process_url url = true
          · simp only [hp, Bool.not_true, if_neg (by simp : ¬ (false = true))]
            have h1 : ∀ u ∈ s.fetched ++ [url], should_process_url u = true := by
              intro u hu
              rcases List.mem_append.mp hu with h2 | h2
              · exact h u h2
              · rw [List.mem_singleton.mp h2]; exact hp
            cases hw : world url with
            | none => exact ih _ h1
            | some page => exact ih _ h1
          · have hp' : should_process_url url = false := by
              cases hq : should_process_url url
              · rfl
              · exact absurd hq hp
            simp only [hp', Bool.not_false, if_pos rfl]
            exact ih _ h

/-- Helper: a prefix occurrence yields a prefix of the extended list. -/
theorem pfx_append (p l r : List Char) (h : pfx p l = true) :
    pfx p (l ++ r) = true := by
  induction p generalizing l with
  | nil => rfl
  | cons a as ih =>
    cases l with
    | nil => exact absurd h (by simp [pfx])
    | cons b bs =>
      rw [pfx] at h
      simp only [Bool.and_eq_true] at h
      obtain ⟨h1, h2⟩ := h
      rw [List.cons_append, pfx, h1, ih bs h2]
      rfl

/-- Helper: a substring of `l` is a substring of `l ++ r`. -/
theorem hasSubAux_append_left (pat l r : List Char)
    (h : hasSubAux pat l = true) : hasSubAux pat (l ++ r) = true := by
  induction l with
  | nil =>
    rw [hasSubAux] at h
    have : pat = [] := by
      cases pat
      · rfl
      · exact absurd h (by simp [List.isEmpty])
    subst this
    cases r with
    | nil => rfl
    | cons c cs => rw [List.nil_append, hasSubAux, pfx]; rfl
  | cons c cs ih =>
    rw [hasSubAux] at h
    simp only [Bool.or_eq_true] at h
    rcases h with h1 | h1
    · rw [List.cons_append, hasSubAux]
      have := pfx_append pat (c :: cs) r h1
      rw [List.cons_append] at this
      rw [this]
      rfl
    · rw [List.cons_append, hasSubAux, ih h1, Bool.or_true]

/-- Helper: a pattern that is a prefix of `r` occurs in `l ++ r`. -/
theorem hasSubAux_of_pfx {pat r : List Char} (l : List Char)
    (h : pfx pat r = true) : hasSubAux pat (l ++ r) = true := by
  induction l with
  | nil =>
    cases r with
    | nil =>
      cases pat with
      | nil => rfl
      | cons a as => exact absurd h (by simp [pfx])
    | cons c cs => rw [List.nil_append, hasSubAux, h]; rfl
  | cons c cs ih => rw [List.cons_append, hasSubAux, ih, Bool.or_true]

/-- Helper: the URL policy rejects a URL that contains `/src/` or one of
the item fragments. -/
theorem should_process_url_false_of (u : String)
    (h : hasSub u "/src/" = true ∨
      (hasSub u "#method." || hasSub u "#impl-" || hasSub u "#associatedtype."
        || hasSub u "#associatedconstant.") = true) :
    should_process_url u = false := by
  rw [should_process_url]
  rcases h with h | h
  · rw [if_pos h]
  · by_cases h2 : hasSub u "/src/" = true
    · rw [if_pos h2]
    · rw [if_neg h2, if_pos h]

/-- C6: a URL whose path contains `/src/`, or whose fragment begins with
`method.`, `impl-`, `associatedtype.` or `associatedconstant.`, is never
handed to the fetcher — whether it is the seed or arrives via link
discovery (`p ++ "#" ++ f` is the URL with path-part `p` and fragment `f`;
a fragment-free URL is covered by the second conjunct). -/
theorem c6_url_policy_never_fetched (world : String → Option ParsedPage)
    (resolve : String → String → Option String) (crateName : String)
    (maxPages : Option Nat) (fuel : Nat) (p f : String) :
    ((hasSub p "/src/" = true ∨ pfx "method.".data f.data = true ∨
        pfx "impl-".data f.data = true ∨ pfx "associatedtype.".data f.data = true ∨
        pfx "associatedconstant.".data f.data = true) →
      (p ++ "#" ++ f) ∉
        (load_documents_from_docs_rs world resolve crateName maxPages fuel).fetched) ∧
    (hasSub p "/src/" = true →
      p ∉ (load_documents_from_docs_rs world resolve crateName maxPages fuel).fetched) := by
  have hall : ∀ u ∈ (load_documents_from_docs_rs world resolve crateName maxPages fuel).fetched,
      should_process_url u = true :=
    crawlLoop_fetched_filtered world resolve crateName (maxPages.getD 10000) fuel _
      (by intro u hu; exact absurd hu (List.not_mem_nil u))
  have hdata : (p ++ "#" ++ f).data = p.data ++ ('#' :: f.data) := by
    rw [String.data_append, String.data_append, List.append_assoc]
    rfl
  constructor
  · intro h hmem
    have hfalse : should_process_url (p ++ "#" ++ f) = false := by
      refine should_process_url_false_of _ ?_
      rcases h with h | h | h | h | h
      · refine Or.inl ?_
        rw [hasSub, hdata]
        have := hasSubAux_append_left "/src/".data p.data ('#' :: f.data) h
        exact this
      · refine Or.inr ?_
        have : hasSub (p ++ "#" ++ f) "#method." = true := by
          rw [hasSub, hdata]
          refine hasSubAux_of_pfx p.data ?_
          rw [show ("#method.".data) = '#' :: "method.".data from rfl, pfx]
          simpa using h
        rw [this]
        rfl
      · refine Or.inr ?_
        have : hasSub (p ++ "#" ++ f) "#impl-" = true := by
          rw [hasSub, hdata]
          refine hasSubAux_of_pfx p.data ?_
          rw [show ("#impl-".data) = '#' :: "impl-".data from rfl, pfx]
          simpa using h
        rw [this]
        simp
      · refine Or.inr ?_
        have : hasSub (p ++ "#" ++ f) "#associatedtype." = true := by
          rw [hasSub, hdata]
          refine hasSubAux_of_pfx p.data ?_
          rw [show ("#associatedtype.".data) = '#' :: "associatedtype.".data from rfl, pfx]
          simpa using h
        rw [this]
        simp
      · refine Or.inr ?_
        have : hasSub (p ++ "#" ++ f) "#associatedconstant." = true := by
          rw [hasSub, hdata]
          refine hasSubAux_of_pfx p.data ?_
          rw [show ("#associatedconstant.".data) = '#' :: "associatedconstant.".data from rfl, pfx]
          simpa using h
        rw [this]
        simp
    rw [hall _ hmem] at hfalse
    exact absurd hfalse (by simp)
  · intro h hmem
    have hfalse : should_process_url p = false := should_process_url_false_of _ (Or.inl h)
    rw [hall _ hmem] at hfalse
    exact absurd hfalse (by simp)

/-- C6 witness: a source-code URL with an item fragment is never fetched in
a concrete crawl. -/
theorem c6_url_policy_never_fetched_witness :
    (hasSub "https://docs.rs/serde/latest/src/serde/lib.rs.html" "/src/" = true) ∧
    ("https://docs.rs/serde/latest/src/serde/lib.rs.html" ++ "#" ++ "method.foo") ∉
      (load_documents_from_docs_rs (fun _ => none) (fun _ _ => none) "serde"
        (some 5) 9).fetched :=
  ⟨by decide,
    (c6_url_policy_never_fetched (fun _ => none) (fun _ _ => none) "serde" (some 5) 9
      "https://docs.rs/serde/latest/src/serde/lib.rs.html" "method.foo").1
      (Or.inl (by decide))⟩

/-- Helper: on any page other than the first, `processPage` keeps the
version unchanged. -/
theorem processPage_version_of_ne_one (resolve : String → String → Option String)
    (crateName : String) (maxPages : Nat) (s : CrawlState) (url : String)
    (page : ParsedPage) (h : s.processed ≠ 1) :
    (processPage resolve crateName maxPages s url page).version = s.version := by
  simp only [processPage]
  rw [if_neg (fun hc => h hc.2)]

/-- Helper: once a page has been processed, the extracted version never
changes again (the extraction guard requires `processed == 1`). -/
theorem crawlLoop_version_fixed (world : String → Option ParsedPage)
    (resolve : String → String → Option String) (crateName : String) (maxPages : Nat) :
    ∀ (fuel : Nat) (s : CrawlState), 1 ≤ s.processed →
      (crawlLoop world resolve crateName maxPages fuel s).version = s.version := by
  intro fuel
  induction fuel with
  | zero => intro s _; rfl
  | succ fuel ih =>
    intro s h
    rw [crawlLoop]
    cases hf : s.frontier with
    | nil => rfl
    | cons url rest =>
      dsimp only
      by_cases hb : s.processed ≥ maxPages
      · rw [if_pos hb]
      · rw [if_neg hb]
        by_cases hv : url ∈ s.visited
        · rw [if_pos hv]; exact ih _ h
        · rw [if_neg hv]
          by_cases hp : should_process_url url = true
          · simp only [hp, Bool.not_true, if_neg (by simp : ¬ (false = true))]
            cases hw : world url with
            | none => exact ih _ (by dsimp only; omega)
            | some page =>
              refine (ih _ ?_).trans (processPage_version_of_ne_one _ _ _ _ _ _ ?_)
              · exact Nat.le_add_left 1 s.processed
              · exact (by omega : s.processed + 1 ≠ 1)
          · have hp' : should_process_url url = false := by
              cases hq : should_process_url url
              · rfl
              · exact absurd hq hp
            simp only [hp', Bool.not_false, if_pos rfl]
            exact ih _ h

/-- Helper: the crawl loop only appends to the fetch trace. -/
theorem crawlLoop_fetched_extend (world : String → Option ParsedPage)
    (resolve : String → String → Option String) (crateName : String) (maxPages : Nat) :
    ∀ (fuel : Nat) (s : CrawlState),
      ∃ t, (crawlLoop world resolve crateName maxPages fuel s).fetched = s.fetched ++ t := by
  intro fuel
  induction fuel with
  | zero => intro s; exact ⟨[], by rw [crawlLoop]; simp⟩
  | succ fuel ih =>
    intro s
    rw [crawlLoop]
    cases hf : s.frontier with
    | nil => exact ⟨[], by simp⟩
    | cons url rest =>
      dsimp only
      by_cases hb : s.processed ≥ maxPages
      · rw [if_pos hb]; exact ⟨[], by simp⟩
      · rw [if_neg hb]
        by_cases hv : url ∈ s.visited
        · rw [if_pos hv]; exact ih _
        · rw [if_neg hv]
          by_cases hp : should_process_url url = true
          · simp only [hp, Bool.not_true, if_neg (by simp : ¬ (false = true))]
            cases hw : world url with
            | none =>
              obtain ⟨t, ht⟩ := ih { s with
                frontier := rest
                visited := url :: s.visited
                processed := s.processed + 1
                fetched := s.fetched ++ [url] }
              exact ⟨[url] ++ t, by rw [ht]; simp⟩
            | some page =>
              obtain ⟨t, ht⟩ := ih (processPage resolve crateName maxPages
                { s with
                  frontier := rest
                  visited := url :: s.visited
                  processed := s.processed + 1
                  fetched := s.fetched ++ [url] } url page)
              exact ⟨[url] ++ t, by rw [ht]; simp [processPage]⟩
          · have hp' : should_process_url url = false := by
              cases hq : should_process_url url
              · rfl
              · exact absurd hq hp
            simp only [hp', Bool.not_false, if_pos rfl]
            exact ih _

/-- C3: the extracted version is exactly what the version-extraction block
computes on the first successfully fetched page (which, when any fetch is
attempted, is the seed URL): the trimmed `.version` element text when one
is present, else the `nth_back(2)` URL segment when it is not "latest" and
contains a digit, else absent — and no later page ever overwrites it.
When the first fetch attempt fails there is no successful page and the
version stays absent. -/
theorem c3_version_from_first_fetched_page (world : String → Option ParsedPage)
    (resolve : String → String → Option String) (crateName : String)
    (maxPages : Option Nat) (fuel : Nat) :
    ((load_documents_from_docs_rs world resolve crateName maxPages fuel).version =
      (match (load_documents_from_docs_rs world resolve crateName maxPages fuel).fetched.head? with
       | none => none
       | some u =>
         match world u with
         | none => none
         | some page => extractVersionFromPage u page)) ∧
    (∀ u, (load_documents_from_docs_rs world resolve crateName maxPages fuel).fetched.head? =
        some u → world u = none →
      (load_documents_from_docs_rs world resolve crateName maxPages fuel).fetched = [u]) := by
  constructor
  · rw [load_documents_from_docs_rs]
    cases fuel with
    | zero => rfl
    | succ fuel =>
      rw [crawlLoop]
      dsimp only
      by_cases hb : (0 : Nat) ≥ maxPages.getD 10000
      · rw [if_pos hb]
        rfl
      · rw [if_neg hb, if_neg (List.not_mem_nil (baseUrl crateName))]
        by_cases hp : should_process_url (baseUrl crateName) = true
        · simp only [hp, Bool.not_true, if_neg (by simp : ¬ (false = true))]
          cases hw : world (baseUrl crateName) with
          | none =>
            rw [crawlLoop_nil_frontier _ _ _ _ _ _ rfl]
            simp [hw]
          | some page =>
            have hver := crawlLoop_version_fixed world resolve crateName (maxPages.getD 10000)
              fuel (processPage resolve crateName (maxPages.getD 10000)
                { documents := [], visited := [baseUrl crateName], frontier := [],
                  version := none, processed := 1, fetched := [baseUrl crateName] }
                (baseUrl crateName) page) (by simp [processPage])
            obtain ⟨t, ht⟩ := crawlLoop_fetched_extend world resolve crateName
              (maxPages.getD 10000) fuel (processPage resolve crateName (maxPages.getD 10000)
                { documents := [], visited := [baseUrl crateName], frontier := [],
                  version := none, processed := 1, fetched := [baseUrl crateName] }
                (baseUrl crateName) page)
            dsimp only
            simp only [Nat.zero_add, List.nil_append]
            rw [hver, ht]
            simp [processPage, hw]
        · have hp' : should_process_url (baseUrl crateName) = false := by
            cases hq : should_process_url (baseUrl crateName)
            · rfl
            · exact absurd hq hp
          simp only [hp', Bool.not_false, if_pos rfl]
          rw [crawlLoop_nil_frontier _ _ _ _ _ _ rfl]
          simp only [if_true]
          rfl
  · intro u hu hwu
    rw [load_documents_from_docs_rs] at hu ⊢
    cases fuel with
    | zero => exact absurd hu (by rw [crawlLoop]; simp)
    | succ fuel =>
      rw [crawlLoop] at hu ⊢
      dsimp only at hu ⊢
      by_cases hb : (0 : Nat) ≥ maxPages.getD 10000
      · rw [if_pos hb] at hu
        exact absurd hu (by simp)
      · rw [if_neg hb, if_neg (List.not_mem_nil (baseUrl crateName))] at hu ⊢
        by_cases hp : should_process_url (baseUrl crateName) = true
        · simp only [hp, Bool.not_true, if_neg (by simp : ¬ (false = true))] at hu ⊢
          cases hw : world (baseUrl crateName) with
          | none =>
            rw [hw] at hu
            dsimp only at hu ⊢
            rw [crawlLoop_nil_frontier _ _ _ _ _ _ rfl] at hu
            simp only [List.nil_append, List.head?_cons, Option.some.injEq] at hu
            subst hu
            rw [crawlLoop_nil_frontier _ _ _ _ _ _ rfl]
            simp
          | some page =>
            rw [hw] at hu
            dsimp only at hu ⊢
            obtain ⟨t, ht⟩ := crawlLoop_fetched_extend world resolve crateName
              (maxPages.getD 10000) fuel (processPage resolve crateName (maxPages.getD 10000)
                { documents := [], visited := [baseUrl crateName], frontier := [],
                  version := none, processed := 0 + 1, fetched := [] ++ [baseUrl crateName] }
                (baseUrl crateName) page)
            rw [ht] at hu
            simp only [processPage, List.nil_append, List.cons_append, List.head?_cons,
              Option.some.injEq] at hu
            rw [← hu] at hwu
            rw [hw] at hwu
            exact absurd hwu (by simp)
        · have hp' : should_process_url (baseUrl crateName) = false := by
            cases hq : should_process_url (baseUrl crateName)
            · rfl
            · exact absurd hq hp
          simp only [hp', Bool.not_false, if_pos rfl] at hu
          rw [crawlLoop_nil_frontier _ _ _ _ _ _ rfl] at hu
          exact absurd hu (by simp)

/-- C3 witness: a world whose seed page carries a `.version` element; the
crawl reports its trimmed text. -/
theorem c3_version_from_first_fetched_page_witness :
    (load_documents_from_docs_rs
        (fun _ => some ⟨some " 1.2.3 ", ["body"], []⟩) (fun _ _ => none)
        "serde" (some 5) 9).version =
      (match (load_documents_from_docs_rs
          (fun _ => some ⟨some " 1.2.3 ", ["body"], []⟩) (fun _ _ => none)
          "serde" (some 5) 9).fetched.head? with
       | none => none
       | some u =>
         match (fun _ : String => some (⟨some " 1.2.3 ", ["body"], []⟩ : ParsedPage)) u with
         | none => none
         | some page => extractVersionFromPage u page) :=
  (c3_version_from_first_fetched_page
    (fun _ => some ⟨some " 1.2.3 ", ["body"], []⟩) (fun _ _ => none) "serde" (some 5) 9).1

/-- C1: `search_similar_docs` returns at most `k` rows; every returned
triple is the projection of a stored row whose `crate_name` equals the
requested package, with similarity exactly `1 - distance`; and the rows
come in non-decreasing distance order.  The statement is universal in the
distance function computed by the external pgvector `<=>` operator, so it
holds in particular for cosine distance. -/
theorem c1_search_similar_docs (table : List DocRow) (dist : List ℚ → List ℚ → ℚ)
    (P : String) (q : List ℚ) (k : Nat) :
    (search_similar_docs table dist P q k).length ≤ k ∧
    (∀ t ∈ search_similar_docs table dist P q k, ∃ row ∈ table,
      row.crate_name = P ∧ t = (row.doc_path, row.content, 1 - dist row.embedding q)) ∧
    List.Pairwise (fun t1 t2 : String × String × ℚ => 1 - t1.2.2 ≤ 1 - t2.2.2)
      (search_similar_docs table dist P q k) := by
  haveI hT : IsTotal DocRow (fun a b => dist a.embedding q ≤ dist b.embedding q) :=
    ⟨fun a b => le_total _ _⟩
  haveI hTr : IsTrans DocRow (fun a b => dist a.embedding q ≤ dist b.embedding q) :=
    ⟨fun a b c h1 h2 => le_trans h1 h2⟩
  refine ⟨?_, ?_, ?_⟩
  · simp only [search_similar_docs, List.length_map, List.length_take]
    exact Nat.min_le_left _ _
  · intro t ht
    simp only [search_similar_docs, List.mem_map] at ht
    obtain ⟨row, hrow, ht⟩ := ht
    have h1 : row ∈ (table.filter (fun r => r.crate_name == P)).insertionSort
        (fun a b => dist a.embedding q ≤ dist b.embedding q) :=
      (List.take_sublist _ _).subset hrow
    rw [List.mem_insertionSort] at h1
    have h2 := List.mem_filter.mp h1
    exact ⟨row, h2.1, by simpa using h2.2, ht.symm⟩
  · have hs : List.Pairwise (fun a b : DocRow => dist a.embedding q ≤ dist b.embedding q)
        ((table.filter (fun r => r.crate_name == P)).insertionSort
          (fun a b => dist a.embedding q ≤ dist b.embedding q)) :=
      List.sorted_insertionSort _ _
    have ht := hs.sublist (List.take_sublist k _)
    exact ht.map _ (fun a b hab => by simpa using hab)

/-- C1 witness: a concrete one-row search under a constant distance. -/
theorem c1_search_similar_docs_witness :
    (search_similar_docs [⟨1, "serde", "p", "c", [1], 2, 0⟩]
        (fun _ _ => (0 : ℚ)) "serde" [] 3).length ≤ 3 ∧
    (∀ t ∈ search_similar_docs [⟨1, "serde", "p", "c", [1], 2, 0⟩]
        (fun _ _ => (0 : ℚ)) "serde" [] 3,
      ∃ row ∈ [(⟨1, "serde", "p", "c", [1], 2, 0⟩ : DocRow)],
        row.crate_name = "serde" ∧
        t = (row.doc_path, row.content, 1 - (fun _ _ : List ℚ => (0 : ℚ)) row.embedding [])) ∧
    List.Pairwise (fun t1 t2 : String × String × ℚ => 1 - t1.2.2 ≤ 1 - t2.2.2)
      (search_similar_docs [⟨1, "serde", "p", "c", [1], 2, 0⟩]
        (fun _ _ => (0 : ℚ)) "serde" [] 3) :=
  c1_search_similar_docs [⟨1, "serde", "p", "c", [1], 2, 0⟩] (fun _ _ => (0 : ℚ)) "serde" [] 3

end RustDocs
